import Mathlib

/-!
Verification of the React-fundamental-hooks repository against its
natural-language specification.

The repository contains small React hooks:
- useCustomFetcher (data fetching with loading and error state),
- useDebouncedValue and useDebouncedFunction (debouncing),
- useForm (form state, validation, submission; its source file is not
  present in the snapshot, so it is modelled from the spec).

The shallow embedding below translates the state of each hook and handlers
into pure Lean definitions.  Browser primitives (fetch, the timer queue,
the useEffect dependency comparison) are modelled explicitly:
a fetch attempt is an abstract result value, and the timer queue of the
debounce hooks is modelled by the chronological list of scheduled
callbacks together with the cancellation rule of the source.
-/

/-! ## useCustomFetcher (src/unnamed/part_000)

State of the hook: four useState cells.  the data cell starts as null (none),
the error cell as the empty string, the two flags as false.
-/

structure FetchState (α : Type) where
  isLoading : Bool
  data : Option α
  isError : Bool
  error : String
deriving DecidableEq, Repr

/-- The initial state of useCustomFetcher: useState(false), useState(null),
useState(false), useState(""). -/
def initFetchState {α : Type} : FetchState α :=
  { isLoading := false, data := none, isError := false, error := "" }

/-- The outcome of one browser fetch attempt: either the promise rejects
with a network error, or an HTTP response arrives with a status code and
a body whose JSON parse either succeeds or fails with a message. -/
inductive FetchResult (α : Type) where
  | netError (msg : String)
  | httpResponse (status : Nat) (body : Except String α)

/-- res.ok of the Fetch API: status in the 2xx range 200..299. -/
def resOk (status : Nat) : Bool :=
  decide (200 ≤ status) && decide (status ≤ 299)

/-- The reset helper of useCustomFetcher: setIsError(false); setError(""). -/
def fetchReset {α : Type} (s : FetchState α) : FetchState α :=
  { s with isError := false, error := "" }

/-- The synchronous prefix of fetchData, before the await: reset();
setIsLoading(true). -/
def fetchStart {α : Type} (s : FetchState α) : FetchState α :=
  { fetchReset s with isLoading := true }

/-- The rest of fetchData once the fetch attempt has settled: the
try/catch block (throw on not res.ok, setData on a parsed body, the catch
setting isError and error from err.message), followed by
setIsLoading(false). -/
def fetchSettle {α : Type} (r : FetchResult α) (s : FetchState α) : FetchState α :=
  match r with
  | FetchResult.netError msg =>
      { s with isError := true, error := msg, isLoading := false }
  | FetchResult.httpResponse status body =>
      if resOk status then
        match body with
        | Except.ok d => { s with data := some d, isLoading := false }
        | Except.error msg =>
            { s with isError := true, error := msg, isLoading := false }
      else
        { s with isError := true,
                 error := "HTTP error! status: " ++ toString status,
                 isLoading := false }

/-- The whole fetchData function of useCustomFetcher, as a state
transformer given the outcome of the single fetch it performs. -/
def fetchData {α : Type} (r : FetchResult α) (s : FetchState α) : FetchState α :=
  fetchSettle r (fetchStart s)

/-- Classifies the fetch outcomes on which fetchData runs its catch
branch (network error, non-2xx status, or a body that fails to parse). -/
def isFetchFailure {α : Type} : FetchResult α → Bool
  | FetchResult.netError _ => true
  | FetchResult.httpResponse status body =>
      if resOk status then
        match body with
        | Except.ok _ => false
        | Except.error _ => true
      else true

/-- The useEffect with dependency array [url]: given the previous
rendered url (none at mount) and the list of urls of the subsequent
renders, the list of urls actually fetched.  React re-runs the effect
exactly when the dependency differs from that of the previous render. -/
def fetchEvents : Option String → List String → List String
  | _, [] => []
  | prev, u :: rest =>
      if prev = some u then fetchEvents (some u) rest
      else u :: fetchEvents (some u) rest

/-- The fetches performed by a useCustomFetcher instance across its
lifetime, given the url of each successive render starting at mount. -/
def useCustomFetcher (urls : List String) : List String :=
  fetchEvents none urls

/-! ### Fetcher lemmas -/

/-- On any failing outcome the catch branch runs and setData is never
reached, so data is untouched. -/
theorem fetchData_failure_data {α : Type} (r : FetchResult α) (s : FetchState α)
    (h : isFetchFailure r = true) : (fetchData r s).data = s.data := by
  rcases r with msg | ⟨st, body⟩
  · rfl
  · by_cases hok : resOk st
    · rcases body with m | d
      · simp [fetchData, fetchSettle, fetchStart, fetchReset, hok]
      · simp [isFetchFailure, hok] at h
    · simp [fetchData, fetchSettle, fetchStart, fetchReset, hok]

/-- On any failing outcome the catch branch sets isError. -/
theorem fetchData_failure_isError {α : Type} (r : FetchResult α) (s : FetchState α)
    (h : isFetchFailure r = true) : (fetchData r s).isError = true := by
  rcases r with msg | ⟨st, body⟩
  · rfl
  · by_cases hok : resOk st
    · rcases body with m | d
      · simp [fetchData, fetchSettle, fetchStart, fetchReset, hok]
      · simp [isFetchFailure, hok] at h
    · simp [fetchData, fetchSettle, fetchStart, fetchReset, hok]

/-- Claim C4: for every fetch performed by useCustomFetcher, a response
with a non-2xx HTTP status yields an error state (isError true, a
non-empty error message) and does not set data from that response, while
a 2xx response whose body parses sets data and leaves isError false. -/
theorem fetcher_status_handling {α : Type} (s : FetchState α) (status : Nat)
    (body : Except String α) :
    (resOk status = false →
      (fetchData (FetchResult.httpResponse status body) s).isError = true ∧
      (fetchData (FetchResult.httpResponse status body) s).error ≠ "" ∧
      (fetchData (FetchResult.httpResponse status body) s).data = s.data) ∧
    (∀ d : α, resOk status = true → body = Except.ok d →
      (fetchData (FetchResult.httpResponse status body) s).data = some d ∧
      (fetchData (FetchResult.httpResponse status body) s).isError = false) := by
  constructor
  · intro h
    have hmsg : ("HTTP error! status: " ++ toString status) ≠ "" := by
      intro heq
      have hlen := congrArg String.length heq
      have h20 : ("HTTP error! status: " : String).length = 20 := rfl
      have h0 : ("" : String).length = 0 := rfl
      rw [String.length_append, h20, h0] at hlen
      omega
    refine ⟨?_, ?_, ?_⟩ <;>
      simp [fetchData, fetchSettle, fetchStart, fetchReset, h, hmsg]
  · intro d hok hbody
    subst hbody
    constructor <;> simp [fetchData, fetchSettle, fetchStart, fetchReset, hok]

/-- Witness for C4 at concrete inputs: a 404 sets isError without
touching data, a 200 with a parsed body sets data. -/
theorem fetcher_status_handling_witness :
    (fetchData (FetchResult.httpResponse 404 (Except.error "x"))
        (initFetchState (α := Nat))).isError = true ∧
    (fetchData (FetchResult.httpResponse 200 (Except.ok 5))
        (initFetchState (α := Nat))).data = some 5 := by
  refine ⟨((fetcher_status_handling initFetchState 404 (Except.error "x")).1
      (by decide)).1, ?_⟩
  exact ((fetcher_status_handling initFetchState 200 (Except.ok 5)).2 5
      (by decide) rfl).1

/-- Claim C5: useCustomFetcher fetches exactly when the url dependency
changes (a render with an unchanged url triggers no fetch, the initial
mount and every changed url do), and every fetch first clears the error
state and raises isLoading, and lowers isLoading once the attempt
settles, on success and failure alike. -/
theorem fetcher_refetch_on_url_change {α : Type} :
    (useCustomFetcher [] = [] ∧
     ∀ (u : String) (rest : List String),
       useCustomFetcher (u :: rest) = u :: fetchEvents (some u) rest) ∧
    (∀ (prev u : String) (rest : List String),
       fetchEvents (some prev) (u :: rest) =
         if prev = u then fetchEvents (some u) rest
         else u :: fetchEvents (some u) rest) ∧
    (∀ s : FetchState α,
       (fetchStart s).isError = false ∧ (fetchStart s).error = "" ∧
       (fetchStart s).isLoading = true) ∧
    (∀ (r : FetchResult α) (s : FetchState α),
       (fetchData r s).isLoading = false) := by
  refine ⟨⟨rfl, fun u rest => ?_⟩, fun prev u rest => ?_, fun s => ⟨rfl, rfl, rfl⟩,
    fun r s => ?_⟩
  · simp [useCustomFetcher, fetchEvents]
  · by_cases h : prev = u <;> simp [fetchEvents, h]
  · rcases r with msg | ⟨st, body⟩
    · rfl
    · rcases body with d | m <;> by_cases hok : resOk st <;>
        simp [fetchData, fetchSettle, fetchStart, fetchReset, hok]

/-- Claim C10: data is written only by a successful 2xx parse, so a
failed fetch leaves data unchanged; after a failure that follows an
earlier success, data still holds the earlier response and isError is
true. -/
theorem fetcher_failure_preserves_data {α : Type} (s : FetchState α)
    (r r2 : FetchResult α) (d : α) (st : Nat) :
    (isFetchFailure r = true → (fetchData r s).data = s.data) ∧
    (resOk st = true → isFetchFailure r2 = true →
      (fetchData r2 (fetchData (FetchResult.httpResponse st (Except.ok d)) s)).data
        = some d ∧
      (fetchData r2 (fetchData (FetchResult.httpResponse st (Except.ok d)) s)).isError
        = true) := by
  refine ⟨fun h => fetchData_failure_data r s h, fun hok h2 => ⟨?_, ?_⟩⟩
  · rw [fetchData_failure_data r2 _ h2]
    simp [fetchData, fetchSettle, fetchStart, fetchReset, hok]
  · exact fetchData_failure_isError r2 _ h2

/-- Witness for C10 at concrete inputs: a network error leaves the
initial null data in place, and a 500 after a successful 200 leaves the
earlier payload in data. -/
theorem fetcher_failure_preserves_data_witness :
    (fetchData (FetchResult.netError "boom") (initFetchState (α := Nat))).data
      = none ∧
    (fetchData (FetchResult.httpResponse 500 (Except.error "bad"))
        (fetchData (FetchResult.httpResponse 200 (Except.ok 7))
          (initFetchState (α := Nat)))).data = some 7 := by
  refine ⟨?_, ?_⟩
  · exact (fetcher_failure_preserves_data initFetchState
      (FetchResult.netError "boom") (FetchResult.netError "boom") 7 200).1 rfl
  · exact ((fetcher_failure_preserves_data initFetchState
      (FetchResult.netError "x") (FetchResult.httpResponse 500 (Except.error "bad"))
      7 200).2 (by decide) (by decide)).1

/-! ## Debouncing (src/unnamed/part_001 and src/src/useDebouncedFunction.jsx)

Both hooks schedule a setTimeout for delay ms and clear the previously
pending timer when a new value arrives (the useEffect cleanup in
useDebouncedValue, the explicit clearTimeout in useDebouncedFunction).
The timer queue is modelled by the chronological list of scheduling
events (time, payload): the timer of an event fires at time + delay unless a
later event arrives strictly before that moment and cancels it. -/

/-- The fired timers: given the delay and the chronological list of
scheduling events, the list of (firing time, payload) pairs of the
timers that are not cancelled.  An event followed by a later event
within less than delay ms is cancelled by the clearTimeout of the
source; the timer of the last event always fires. -/
def debounceFires {α : Type} (d : Nat) : List (Nat × α) → List (Nat × α)
  | [] => []
  | (t, v) :: [] => [(t + d, v)]
  | (t, v) :: (t2, v2) :: rest =>
      if t + d ≤ t2 then (t + d, v) :: debounceFires d ((t2, v2) :: rest)
      else debounceFires d ((t2, v2) :: rest)

/-- The updates applied to the debouncedValue state cell of
useDebouncedValue: each uncancelled timer performs
setDebouncedValue(value) at its firing time. -/
def debouncedUpdates {α : Type} (d : Nat) (inputs : List (Nat × α)) :
    List (Nat × α) :=
  debounceFires d inputs

/-- The debouncedValue state cell at time T: useState() starts it as
undefined (none); afterwards it holds the payload of the last update
fired no later than T. -/
def debouncedValueAt {α : Type} (inputs : List (Nat × α)) (d T : Nat) :
    Option α :=
  (((debounceFires d inputs).filter (fun u => decide (u.1 ≤ T))).getLast?).map
    Prod.snd

/-- The useDebouncedValue hook: inputs are the (render time, value)
pairs of its successive renders, the optional delay defaults to 500, and
the result gives the debouncedValue visible at each time. -/
def useDebouncedValue {α : Type} (inputs : List (Nat × α))
    (delay : Nat := 500) : Nat → Option α :=
  fun T => debouncedValueAt inputs delay T

/-- The useDebouncedFunction hook: calls are the (call time, arguments)
pairs of the calls to debouncedFunction, the optional delay defaults to
500, and the result lists the (execution time, arguments) pairs at which
the wrapped fn is actually invoked. -/
def useDebouncedFunction {α : Type} (calls : List (Nat × α))
    (delay : Nat := 500) : List (Nat × α) :=
  debounceFires delay calls

/-! ### Debounce lemmas -/

/-- Characterization of the uncancelled timers: (ft, v) is fired exactly
when some scheduling event (t, v) has ft = t + d and the next event, if
any, arrives no earlier than t + d. -/
theorem mem_debounceFires {α : Type} (d : Nat) (l : List (Nat × α))
    (ft : Nat) (v : α) :
    (ft, v) ∈ debounceFires d l ↔
      ∃ i : Nat, ∃ p : Nat × α, l[i]? = some p ∧ ft = p.1 + d ∧ v = p.2 ∧
        (∀ q : Nat × α, l[i + 1]? = some q → p.1 + d ≤ q.1) := by
  induction l with
  | nil => simp [debounceFires]
  | cons a rest ih =>
    rcases a with ⟨t, w⟩
    cases rest with
    | nil =>
      constructor
      · intro hmem
        simp [debounceFires] at hmem
        exact ⟨0, (t, w), rfl, hmem.1, hmem.2, fun q hq => by simp at hq⟩
      · rintro ⟨i, p, hp, hft, hv, -⟩
        cases i with
        | zero =>
          simp at hp
          subst hp
          simp [debounceFires, hft, hv]
        | succ j => simp at hp
    | cons b rest2 =>
      rcases b with ⟨t2, w2⟩
      by_cases h : t + d ≤ t2
      · rw [show debounceFires d ((t, w) :: (t2, w2) :: rest2)
            = (t + d, w) :: debounceFires d ((t2, w2) :: rest2) from by
          simp [debounceFires, h]]
        constructor
        · intro hmem
          rcases List.mem_cons.mp hmem with heq | htail
          · refine ⟨0, (t, w), rfl, ?_, ?_, ?_⟩
            · exact congrArg Prod.fst heq
            · exact congrArg Prod.snd heq
            · intro q hq
              simp at hq
              subst hq
              exact h
          · rcases ih.mp htail with ⟨i, p, hp, hft, hv, hnext⟩
            exact ⟨i + 1, p, by simpa using hp, hft, hv,
              fun q hq => hnext q (by simpa using hq)⟩
        · rintro ⟨i, p, hp, hft, hv, hnext⟩
          cases i with
          | zero =>
            simp at hp
            subst hp
            simp [hft, hv]
          | succ j =>
            simp at hp
            exact List.mem_cons_of_mem _ (ih.mpr
              ⟨j, p, by simpa using hp, hft, hv,
                fun q hq => hnext q (by simpa using hq)⟩)
      · rw [show debounceFires d ((t, w) :: (t2, w2) :: rest2)
            = debounceFires d ((t2, w2) :: rest2) from by
          simp [debounceFires, h]]
        constructor
        · intro hmem
          rcases ih.mp hmem with ⟨i, p, hp, hft, hv, hnext⟩
          exact ⟨i + 1, p, by simpa using hp, hft, hv,
            fun q hq => hnext q (by simpa using hq)⟩
        · rintro ⟨i, p, hp, hft, hv, hnext⟩
          cases i with
          | zero =>
            simp at hp
            subst hp
            exact absurd (hnext (t2, w2) (by simp)) h
          | succ j =>
            simp at hp
            exact ih.mpr ⟨j, p, by simpa using hp, hft, hv,
              fun q hq => hnext q (by simpa using hq)⟩

/-- Every fired timer stems from a scheduling event and fires exactly
delay ms after it. -/
theorem debounceFires_time {α : Type} (d : Nat) (l : List (Nat × α)) :
    ∀ u ∈ debounceFires d l, ∃ p ∈ l, u.1 = p.1 + d := by
  induction l with
  | nil => simp [debounceFires]
  | cons a rest ih =>
    rcases a with ⟨t, w⟩
    cases rest with
    | nil =>
      intro u hu
      simp [debounceFires] at hu
      exact ⟨(t, w), by simp, by simp [hu]⟩
    | cons b rest2 =>
      rcases b with ⟨t2, w2⟩
      intro u hu
      by_cases h : t + d ≤ t2
      · simp only [debounceFires, if_pos h, List.mem_cons] at hu
        rcases hu with heq | htail
        · exact ⟨(t, w), by simp, by simp [heq]⟩
        · rcases ih u htail with ⟨p, hp, hpt⟩
          exact ⟨p, List.mem_cons_of_mem _ hp, hpt⟩
      · simp only [debounceFires, if_neg h] at hu
        rcases ih u hu with ⟨p, hp, hpt⟩
        exact ⟨p, List.mem_cons_of_mem _ hp, hpt⟩

/-- In a chronological event list the time of the head bounds the time of every
event from below. -/
theorem chain_head_le {α : Type} :
    ∀ (rest : List (Nat × α)) (a : Nat × α),
      List.Chain (fun x y : Nat × α => x.1 < y.1) a rest →
      ∀ p ∈ a :: rest, a.1 ≤ p.1 := by
  intro rest
  induction rest with
  | nil =>
    intro a _ p hp
    simp at hp
    simp [hp]
  | cons b rest2 ih =>
    intro a hchain p hp
    rcases List.chain_cons.mp hchain with ⟨hab, hbrest⟩
    rcases List.mem_cons.mp hp with heq | htail
    · simp [heq]
    · exact le_of_lt (lt_of_lt_of_le hab (ih b hbrest p htail))

/-- Claim C6: an update of debouncedValue to payload v exists exactly
for the scheduling events whose successor, if any, arrives no earlier
than delay ms later; the update fires delay ms after its event, and an
event followed within less than delay ms is cancelled and never
emitted. -/
theorem debouncedValue_update_characterization {α : Type} (d : Nat)
    (inputs : List (Nat × α)) (ft : Nat) (v : α) :
    (ft, v) ∈ debouncedUpdates d inputs ↔
      ∃ i : Nat, ∃ p : Nat × α, inputs[i]? = some p ∧ ft = p.1 + d ∧ v = p.2 ∧
        (∀ q : Nat × α, inputs[i + 1]? = some q → p.1 + d ≤ q.1) :=
  mem_debounceFires d inputs ft v

/-- Witness for C6 at a concrete input: with delay 10 and inputs at
times 0 and 3, the first timer is cancelled and only (13, 2) fires. -/
theorem debouncedValue_update_characterization_witness :
    (13, 2) ∈ debouncedUpdates 10 [(0, 1), (3, 2)] ∧
    ¬ (10, 1) ∈ debouncedUpdates 10 [(0, 1), (3, 2)] := by
  constructor
  · exact (debouncedValue_update_characterization 10 [(0, 1), (3, 2)] 13 2).mpr
      ⟨1, (3, 2), rfl, rfl, rfl, fun q hq => by simp at hq⟩
  · intro hmem
    rcases (debouncedValue_update_characterization 10 [(0, 1), (3, 2)] 10 1).mp
      hmem with ⟨i, p, hp, hft, hv, hnext⟩
    match i, hp with
    | 0, hp =>
      simp at hp
      subst hp
      have := hnext (3, 2) rfl
      omega
    | 1, hp =>
      simp at hp
      subst hp
      simp at hft
    | (j + 2), hp => simp at hp

/-- Claim C7: the function wrapped by useDebouncedFunction runs with the
arguments of a call exactly when no further call arrives within less
than delay ms after it, and it runs delay ms after that call; any call
followed by another within less than delay ms has its pending timer
cancelled, so only the last call of such a burst executes. -/
theorem debouncedFunction_execution_characterization {α : Type} (d : Nat)
    (calls : List (Nat × α)) (et : Nat) (args : α) :
    (et, args) ∈ useDebouncedFunction calls d ↔
      ∃ i : Nat, ∃ p : Nat × α, calls[i]? = some p ∧ et = p.1 + d ∧
        args = p.2 ∧
        (∀ q : Nat × α, calls[i + 1]? = some q → p.1 + d ≤ q.1) :=
  mem_debounceFires d calls et args

/-- Witness for C7 at a concrete input: three calls at 0, 2, 4 with
delay 10 execute only the last one, at time 14. -/
theorem debouncedFunction_execution_characterization_witness :
    (14, 30) ∈ useDebouncedFunction [(0, 10), (2, 20), (4, 30)] 10 ∧
    ¬ (10, 10) ∈ useDebouncedFunction [(0, 10), (2, 20), (4, 30)] 10 := by
  constructor
  · exact (debouncedFunction_execution_characterization 10
      [(0, 10), (2, 20), (4, 30)] 14 30).mpr
      ⟨2, (4, 30), rfl, rfl, rfl, fun q hq => by simp at hq⟩
  · intro hmem
    rcases (debouncedFunction_execution_characterization 10
      [(0, 10), (2, 20), (4, 30)] 10 10).mp hmem with ⟨i, p, hp, hft, hv, hnext⟩
    match i, hp with
    | 0, hp =>
      simp at hp
      subst hp
      have := hnext (2, 20) rfl
      omega
    | 1, hp =>
      simp at hp
      subst hp
      simp at hft
    | 2, hp =>
      simp at hp
      subst hp
      simp at hft
    | (j + 3), hp => simp at hp

/-- Claim C8: omitting the delay argument of useDebouncedValue or
useDebouncedFunction gives exactly the behaviour of delay = 500. -/
theorem debounce_default_delay_500 :
    (∀ (α : Type) (inputs : List (Nat × α)),
      useDebouncedValue inputs = fun T => debouncedValueAt inputs 500 T) ∧
    (∀ (α : Type) (calls : List (Nat × α)),
      useDebouncedFunction calls = debounceFires 500 calls) :=
  ⟨fun _ _ => rfl, fun _ _ => rfl⟩

/-- Claim C9: debouncedValue starts as undefined (none) and stays so
until delay ms after the first input; the initial input is not reflected
immediately. -/
theorem debouncedValue_initially_none {α : Type} (d T t0 : Nat) (v0 : α)
    (rest : List (Nat × α))
    (hchain : List.Chain (fun x y : Nat × α => x.1 < y.1) (t0, v0) rest)
    (hT : T < t0 + d) :
    debouncedValueAt ((t0, v0) :: rest) d T = none := by
  have hfilter : (debounceFires d ((t0, v0) :: rest)).filter
      (fun u => decide (u.1 ≤ T)) = [] := by
    rw [List.filter_eq_nil_iff]
    intro u hu
    rcases debounceFires_time d ((t0, v0) :: rest) u hu with ⟨p, hp, hpt⟩
    have h0 : t0 ≤ p.1 := chain_head_le rest (t0, v0) hchain p hp
    simp only [decide_eq_true_eq]
    omega
  simp [debouncedValueAt, hfilter]

/-- Witness for C9 at a concrete input: with an input at time 0 and
delay 500, the debounced value is still none at time 499. -/
theorem debouncedValue_initially_none_witness :
    debouncedValueAt [(0, 1), (600, 2)] 500 499 = none :=
  debouncedValue_initially_none 500 499 0 1 [(600, 2)]
    (List.chain_cons.mpr ⟨by omega, List.Chain.nil⟩) (by omega)

/-! ## useForm

The useForm source file is not part of the snapshot (index.js exports it
from ./useForm.jsx, which is missing), so the Form State Controller is
modelled from the spec, section 4.1. -/

/-- Modelled from the spec: the result of a Validator, a pure function
mapping a candidate value to isValid and an error message. -/
structure ValidationResult where
  isValid : Bool
  errorMessage : String
deriving DecidableEq, Repr

/-- A field-name-indexed association list, used for values and errors. -/
abbrev FieldMap := List (String × String)

/-- Modelled from the spec: FormState owns values (field name to current
value), errors (field name to error message, absent when no error) and
the submission-in-progress flag. -/
structure FormState where
  values : FieldMap
  errors : FieldMap
  isSubmitting : Bool
deriving DecidableEq, Repr

/-- Lookup of a field in an association list. -/
def lookupField : FieldMap → String → Option String
  | [], _ => none
  | (k, w) :: rest, n => if k = n then some w else lookupField rest n

/-- Sets the entry of a field, inserting it at the end when absent. -/
def setField : FieldMap → String → String → FieldMap
  | [], n, v => [(n, v)]
  | (k, w) :: rest, n, v =>
      if k = n then (n, v) :: rest else (k, w) :: setField rest n v

/-- Sets the entry of a field only when the key is already present, so the
key set never grows (the spec invariant: values always contains exactly
the keys of the original initialValues). -/
def setExisting : FieldMap → String → String → FieldMap
  | [], _, _ => []
  | (k, w) :: rest, n, v =>
      if k = n then (n, v) :: rest else (k, w) :: setExisting rest n v

/-- Removes the entry of a field (the field becomes error-free). -/
def removeField : FieldMap → String → FieldMap
  | [], _ => []
  | (k, w) :: rest, n =>
      if k = n then removeField rest n else (k, w) :: removeField rest n

/-- Modelled from the spec: construction of the controller state from
initialValues, with no errors and isSubmitting false. -/
def initFormState (initialValues : FieldMap) : FormState :=
  { values := initialValues, errors := [], isSubmitting := false }

/-- Modelled from the spec: handleChange sets values[fieldName] to the
new value, with no validation side effect; an unknown field name is a
no-op. -/
def handleChange (n v : String) (s : FormState) : FormState :=
  { s with values := setExisting s.values n v }

/-- Modelled from the spec: handleBlur invokes the validator of the field, if
any, on the current value; an invalid result sets the error of the field to
the returned message, a valid one clears it; without a validator it is a
no-op.  A missing value is read as the empty string. -/
def handleBlur (validations : String → Option (String → ValidationResult))
    (n : String) (s : FormState) : FormState :=
  match validations n with
  | none => s
  | some val =>
      let r := val ((lookupField s.values n).getD "")
      if r.isValid then { s with errors := removeField s.errors n }
      else { s with errors := setField s.errors n r.errorMessage }

/-- Modelled from the spec: handleFocus clears the error of the field
unconditionally. -/
def handleFocus (n : String) (s : FormState) : FormState :=
  { s with errors := removeField s.errors n }

/-- Modelled from the spec: resetFields restores values to a fresh copy
of the original initialValues and clears errors entirely, leaving
isSubmitting untouched. -/
def resetFields (initialValues : FieldMap) (s : FormState) : FormState :=
  { s with values := initialValues, errors := [] }

/-- Modelled from the spec: submit-time validation runs the validator of
every field that has one, in the order the fields appear in values
(which keeps the order of initialValues), collecting the error messages
of the failing fields. -/
def validateAll (validations : String → Option (String → ValidationResult))
    (values : FieldMap) : FieldMap :=
  values.filterMap (fun p =>
    match validations p.1 with
    | none => none
    | some val =>
        let r := val p.2
        if r.isValid then none else some (p.1, r.errorMessage))

/-- Sets all the collected error entries. -/
def setAllFields (e : FieldMap) (fs : FieldMap) : FieldMap :=
  fs.foldl (fun acc p => setField acc p.1 p.2) e

/-- Modelled from the spec: the observable outcome of one handleSubmit
call — whether onSubmit was invoked and with which values, the state
during a pending asynchronous onSubmit, the state after the attempt, and
whether a failure raised by onSubmit propagated to the caller. -/
structure SubmitTrace where
  onSubmitCalled : Bool
  onSubmitArgs : Option FieldMap
  during : Option FormState
  final : FormState
  propagated : Bool
deriving DecidableEq, Repr

/-- Modelled from the spec: handleSubmit validates every field that has
a validator; on any failure it records the errors and aborts without
invoking onSubmit and without touching isSubmitting; otherwise it sets
isSubmitting, invokes onSubmit(values, resetFields) — whose effect on
the state (through the resetFields it received) is the eff argument, and
whose raising or rejecting is the raises argument — and finally lowers
isSubmitting regardless of the outcome.  A raised failure is not caught
or transformed. -/
def handleSubmit (validations : String → Option (String → ValidationResult))
    (eff : FormState → FormState) (raises : Bool) (s : FormState) :
    SubmitTrace :=
  let failures := validateAll validations s.values
  if failures.isEmpty then
    let during := { s with isSubmitting := true }
    { onSubmitCalled := true, onSubmitArgs := some s.values,
      during := some during,
      final := { eff during with isSubmitting := false },
      propagated := raises }
  else
    { onSubmitCalled := false, onSubmitArgs := none, during := none,
      final := { s with errors := setAllFields s.errors failures },
      propagated := false }

/-- An edit of the form before a submit: a change, blur or focus event,
or a reset. -/
inductive FormOp where
  | change (n v : String)
  | blur (n : String)
  | focus (n : String)
  | reset
deriving DecidableEq, Repr

/-- Applies one edit to the form state. -/
def applyOp (validations : String → Option (String → ValidationResult))
    (initialValues : FieldMap) : FormOp → FormState → FormState
  | FormOp.change n v, s => handleChange n v s
  | FormOp.blur n, s => handleBlur validations n s
  | FormOp.focus n, s => handleFocus n s
  | FormOp.reset, s => resetFields initialValues s

/-- Applies a sequence of edits to the form state. -/
def applyOps (validations : String → Option (String → ValidationResult))
    (initialValues : FieldMap) (ops : List FormOp) (s : FormState) :
    FormState :=
  ops.foldl (fun t op => applyOp validations initialValues op t) s

/-! ### Form lemmas -/

/-- A successful lookup is a member of the association list. -/
theorem lookupField_mem (l : FieldMap) (f v : String)
    (h : lookupField l f = some v) : (f, v) ∈ l := by
  induction l with
  | nil => simp [lookupField] at h
  | cons p rest ih =>
    rcases p with ⟨k, w⟩
    by_cases hk : k = f
    · subst hk
      simp [lookupField] at h
      simp [h]
    · simp only [lookupField, if_neg hk] at h
      exact List.mem_cons_of_mem _ (ih h)

/-- Looking up the key just set yields the value just set. -/
theorem lookupField_setField_self (e : FieldMap) (n v : String) :
    lookupField (setField e n v) n = some v := by
  induction e with
  | nil => simp [setField, lookupField]
  | cons p rest ih =>
    rcases p with ⟨k, w⟩
    by_cases hk : k = n
    · simp [setField, hk, lookupField]
    · simp [setField, hk, lookupField, ih]

/-- Setting one key leaves the lookup of any other key unchanged. -/
theorem lookupField_setField_ne (e : FieldMap) (n v f : String)
    (hf : f ≠ n) : lookupField (setField e n v) f = lookupField e f := by
  induction e with
  | nil => simp [setField, lookupField, Ne.symm hf]
  | cons p rest ih =>
    rcases p with ⟨k, w⟩
    by_cases hk : k = n
    · subst hk
      have hkf : k ≠ f := fun h => hf h.symm
      simp [setField, lookupField, Ne.symm hf, hkf]
    · by_cases hkf : k = f
      · subst hkf
        simp [setField, hk, lookupField]
      · simp [setField, hk, lookupField, hkf, ih]

/-- Setting a batch of entries whose keys avoid f leaves the lookup of f
unchanged. -/
theorem lookupField_setAllFields_not_mem (fs : FieldMap) (e : FieldMap)
    (f : String) (h : f ∉ fs.map Prod.fst) :
    lookupField (setAllFields e fs) f = lookupField e f := by
  induction fs generalizing e with
  | nil => rfl
  | cons p rest ih =>
    simp only [List.map_cons, List.mem_cons, not_or] at h
    have hstep : setAllFields e (p :: rest)
        = setAllFields (setField e p.1 p.2) rest := rfl
    rw [hstep, ih (setField e p.1 p.2) h.2,
      lookupField_setField_ne e p.1 p.2 f h.1]

/-- Setting a batch of entries with pairwise distinct keys makes the
lookup of a key find the entry set for it. -/
theorem lookupField_setAllFields_mem (fs : FieldMap) (e : FieldMap)
    (f m : String) (hnodup : (fs.map Prod.fst).Nodup)
    (hmem : (f, m) ∈ fs) :
    lookupField (setAllFields e fs) f = some m := by
  induction fs generalizing e with
  | nil => simp at hmem
  | cons p rest ih =>
    rcases p with ⟨k, w⟩
    simp only [List.map_cons, List.nodup_cons] at hnodup
    have hstep : setAllFields e ((k, w) :: rest)
        = setAllFields (setField e k w) rest := rfl
    rcases List.mem_cons.mp hmem with heq | htail
    · rcases Prod.mk.injEq .. ▸ heq with ⟨h1, h2⟩
      subst h1
      subst h2
      rw [hstep, lookupField_setAllFields_not_mem rest _ f hnodup.1]
      exact lookupField_setField_self e f m
    · rw [hstep]
      exact ih (setField e k w) hnodup.2 htail

/-- The failing fields collected at submit time keep the key order of
values, so their keys form a sublist of the keys of values. -/
theorem validateAll_keys_sublist
    (V : String → Option (String → ValidationResult)) (values : FieldMap) :
    List.Sublist ((validateAll V values).map Prod.fst)
      (values.map Prod.fst) := by
  induction values with
  | nil => simp [validateAll]
  | cons p rest ih
  => rcases p with ⟨k, w⟩
     simp only [validateAll, List.filterMap_cons] at ih ⊢
     cases hV : V k with
     | none => exact ih.cons k
     | some val =>
       by_cases hvalid : (val w).isValid
       · simp only [hvalid, if_true]
         exact ih.cons k
       · simp only [hvalid, if_false, List.map_cons]
         exact ih.cons₂ k

/-- No edit of the form touches the submission flag. -/
theorem applyOp_isSubmitting
    (V : String → Option (String → ValidationResult)) (init : FieldMap)
    (op : FormOp) (s : FormState) :
    (applyOp V init op s).isSubmitting = s.isSubmitting := by
  cases op with
  | change n v => rfl
  | blur n =>
    simp only [applyOp, handleBlur]
    cases hV : V n with
    | none => rfl
    | some val =>
      by_cases h : (val ((lookupField s.values n).getD "")).isValid <;> simp [h]
  | focus n => rfl
  | reset => rfl

/-- No sequence of edits touches the submission flag. -/
theorem applyOps_isSubmitting
    (V : String → Option (String → ValidationResult)) (init : FieldMap)
    (ops : List FormOp) (s : FormState) :
    (applyOps V init ops s).isSubmitting = s.isSubmitting := by
  induction ops generalizing s with
  | nil => rfl
  | cons op rest ih =>
    calc (applyOps V init (op :: rest) s).isSubmitting
        = (applyOps V init rest (applyOp V init op s)).isSubmitting := rfl
      _ = (applyOp V init op s).isSubmitting := ih _
      _ = s.isSubmitting := applyOp_isSubmitting V init op s

/-- Claim C1: when any field that has a validator currently holds an
invalid value, handleSubmit never invokes onSubmit, does not set
isSubmitting, and sets the error of that field to the message returned by its
validator. -/
theorem form_submit_invalid_blocks
    (V : String → Option (String → ValidationResult))
    (eff : FormState → FormState) (raises : Bool) (s : FormState)
    (f v : String) (val : String → ValidationResult)
    (hnodup : (s.values.map Prod.fst).Nodup)
    (hval : V f = some val)
    (hlook : lookupField s.values f = some v)
    (hinvalid : (val v).isValid = false) :
    (handleSubmit V eff raises s).onSubmitCalled = false ∧
    (handleSubmit V eff raises s).during = none ∧
    (handleSubmit V eff raises s).final.isSubmitting = s.isSubmitting ∧
    lookupField (handleSubmit V eff raises s).final.errors f
      = some (val v).errorMessage := by
  have hmemv : (f, v) ∈ s.values := lookupField_mem s.values f v hlook
  have hmemfail : (f, (val v).errorMessage) ∈ validateAll V s.values :=
    List.mem_filterMap.mpr ⟨(f, v), hmemv, by simp [hval, hinvalid]⟩
  have hne : (validateAll V s.values).isEmpty = false := by
    cases hfl : validateAll V s.values with
    | nil =>
      rw [hfl] at hmemfail
      simp at hmemfail
    | cons a as => rfl
  have hnodupf : ((validateAll V s.values).map Prod.fst).Nodup :=
    hnodup.sublist (validateAll_keys_sublist V s.values)
  refine ⟨?_, ?_, ?_, ?_⟩
  · simp [handleSubmit, hne]
  · simp [handleSubmit, hne]
  · simp [handleSubmit, hne]
  · simp only [handleSubmit, hne, Bool.false_eq_true, if_false]
    exact lookupField_setAllFields_mem (validateAll V s.values) s.errors f
      ((val v).errorMessage) hnodupf hmemfail

/-- Claim C2: isSubmitting is false before any submit (at construction
and after any sequence of edits), is true in the state visible while an
asynchronous onSubmit is pending, and is false again once the attempt
settles, whatever onSubmit did to the state and even when it raised. -/
theorem form_isSubmitting_lifecycle
    (V : String → Option (String → ValidationResult))
    (eff : FormState → FormState) (raises : Bool) (init : FieldMap)
    (ops : List FormOp) (s : FormState)
    (hpre : s.isSubmitting = false) :
    (initFormState init).isSubmitting = false ∧
    (applyOps V init ops (initFormState init)).isSubmitting = false ∧
    (∀ d : FormState, (handleSubmit V eff raises s).during = some d →
      d.isSubmitting = true) ∧
    (validateAll V s.values = [] →
      (handleSubmit V eff raises s).during
        = some { s with isSubmitting := true }) ∧
    (handleSubmit V eff raises s).final.isSubmitting = false := by
  refine ⟨rfl, applyOps_isSubmitting V init ops _, ?_, ?_, ?_⟩
  · intro d hd
    by_cases he : (validateAll V s.values).isEmpty
    · simp only [handleSubmit, he, if_true] at hd
      rcases Option.some.injEq .. ▸ hd with h
      simp at h
      rw [← h]
    · simp [handleSubmit, he] at hd
  · intro hnil
    simp [handleSubmit, hnil]
  · by_cases he : (validateAll V s.values).isEmpty <;>
      simp [handleSubmit, he, hpre]

/-- Claim C3: after any prior sequence of edits, resetFields restores
values to the original initialValues (which no edit can have changed),
empties errors entirely, and leaves isSubmitting as it was. -/
theorem form_resetFields_restores
    (V : String → Option (String → ValidationResult)) (init : FieldMap)
    (ops : List FormOp) :
    (resetFields init (applyOps V init ops (initFormState init))).values
      = init ∧
    (resetFields init (applyOps V init ops (initFormState init))).errors
      = [] ∧
    (resetFields init (applyOps V init ops (initFormState init))).isSubmitting
      = (applyOps V init ops (initFormState init)).isSubmitting :=
  ⟨rfl, rfl, rfl⟩

/-- Demo validator requiring a non-empty username, as in the README. -/
def usernameValidator : String → ValidationResult :=
  fun v => { isValid := !(v == ""), errorMessage := "Username is required" }

/-- Demo validator requiring an email of at least five characters. -/
def emailValidator : String → ValidationResult :=
  fun v => { isValid := decide (5 ≤ v.length), errorMessage := "Email is invalid" }

/-- Demo initial values, as in the README scenario. -/
def demoInit : FieldMap := [("username", ""), ("email", "")]

/-- Demo validations mapping, as in the README scenario. -/
def demoValidations : String → Option (String → ValidationResult) :=
  fun n =>
    if n = "username" then some usernameValidator
    else if n = "email" then some emailValidator
    else none

/-- Witness for C1 at a concrete input: submitting the untouched demo
form does not invoke onSubmit and records the username error. -/
theorem form_submit_invalid_blocks_witness :
    (handleSubmit demoValidations id false (initFormState demoInit)).onSubmitCalled
      = false ∧
    lookupField
      (handleSubmit demoValidations id false (initFormState demoInit)).final.errors
      "username" = some "Username is required" := by
  refine ⟨?_, ?_⟩
  · exact (form_submit_invalid_blocks demoValidations id false
      (initFormState demoInit) "username" "" usernameValidator (by decide)
      rfl rfl (by decide)).1
  · exact (form_submit_invalid_blocks demoValidations id false
      (initFormState demoInit) "username" "" usernameValidator (by decide)
      rfl rfl (by decide)).2.2.2

/-- Witness for C2 at a concrete input: on the filled-in demo form the
submit attempt shows isSubmitting true during onSubmit and false after
it, even though onSubmit raised. -/
theorem form_isSubmitting_lifecycle_witness :
    (initFormState demoInit).isSubmitting = false ∧
    (handleSubmit demoValidations id true
      (applyOps demoValidations demoInit
        [FormOp.change "username" "alice", FormOp.change "email" "alice@x.com"]
        (initFormState demoInit))).during
      = some { applyOps demoValidations demoInit
          [FormOp.change "username" "alice", FormOp.change "email" "alice@x.com"]
          (initFormState demoInit) with isSubmitting := true } ∧
    (handleSubmit demoValidations id true
      (applyOps demoValidations demoInit
        [FormOp.change "username" "alice", FormOp.change "email" "alice@x.com"]
        (initFormState demoInit))).final.isSubmitting = false := by
  have h := form_isSubmitting_lifecycle demoValidations id true demoInit
    [FormOp.change "username" "alice", FormOp.change "email" "alice@x.com"]
    (applyOps demoValidations demoInit
      [FormOp.change "username" "alice", FormOp.change "email" "alice@x.com"]
      (initFormState demoInit))
    (by decide)
  exact ⟨h.1, h.2.2.2.1 (by decide), h.2.2.2.2⟩
